import Mathlib

/-!
# syslog2loki: the label-aware batching and delivery pipeline

A shallow embedding of `loki.go` (with the types of `config.go`).

* Go values of type `interface{}` that reach the pipeline are modelled by `Value`
  (strings, integers, booleans and the nil interface).
* Go maps are reference types.  A map object lives in a `Heap` (a list of map contents,
  the address being the index) and a Go map value is `Option Nat`: `none` is the nil map,
  `some a` a reference to the object at address `a`.
* Calls that leave the program (`url.Parse`, `json.Marshal`, the HTTP round trip, the clock)
  are fields of `Env`; they are arbitrary functions, so every theorem holds for every
  behaviour of the outside world.
* A Go run-time panic is the `none` result of an `Option`-valued function.
-/

namespace Syslog2Loki

/-! ## Values and maps -/

/-- Dynamic values (`interface{}`): the nil interface, booleans, integers and strings.  A
`time.Time` field of a record is represented by its printed form; floating-point and nested
configuration values are outside the model (no theorem below depends on the shape of a
label value beyond decidable equality). -/
inductive Value
  | null
  | bool (b : Bool)
  | int (n : Int)
  | str (s : String)
  deriving DecidableEq, Repr

/-- Contents of a `map[string]interface{}`: a finite map with extensional equality. -/
abbrev GoMap := Finmap (fun _ : String => Value)

/-- Store of map objects; the address of an object is its index. -/
abbrev Heap := List GoMap

/-- Contents of the map object at address `a`. -/
def load (h : Heap) (a : Nat) : GoMap := h.getD a ∅

/-- Overwrite the contents of the map object at address `a`. -/
def store (h : Heap) (a : Nat) (m : GoMap) : Heap := h.set a m

/-- Go `make(map[string]interface{})`: a fresh empty map object and its address. -/
def makeMap (h : Heap) : Heap × Nat := (h ++ [∅], h.length)

/-- Go `m[key] = v` on a map value: a panic on the nil map, otherwise the object is updated
in place (every holder of the same reference sees the write). -/
def mapAssign (h : Heap) (m : Option Nat) (key : String) (v : Value) : Option Heap :=
  match m with
  | none => none
  | some a => some (store h a (Finmap.insert key v (load h a)))

/-- What a map value denotes in a heap: `none` for the nil map, otherwise its contents. -/
def view (h : Heap) (m : Option Nat) : Option GoMap := m.map (load h)

/-- Go `reflect.DeepEqual` on two map values: both nil or both non-nil, and then the same
object or equal contents (same length, every key bound to a deeply equal value). -/
def DeepEqual (h : Heap) (a b : Option Nat) : Bool :=
  match a, b with
  | none, none => true
  | some x, some y => x == y || decide (load h x = load h y)
  | _, _ => false

/-- Go `fmt.Sprint(v)` for a single operand. -/
def Sprint : Value → String
  | .null => "<nil>"
  | .bool b => if b then "true" else "false"
  | .int n => toString n
  | .str s => s

/-- Splitting a character list at every occurrence of `sep`; always at least one piece. -/
def splitChars (sep : Char) : List Char → List (List Char)
  | [] => [[]]
  | c :: cs =>
    if c = sep then [] :: splitChars sep cs
    else
      match splitChars sep cs with
      | [] => [[c]]
      | p :: ps => (c :: p) :: ps

/-- Go `strings.Split(s, sep)` for a one-character separator (the program only splits at
a colon). -/
def Split (s : String) (sep : Char) : List String :=
  (splitChars sep s.data).map String.mk

/-! ## Data model (`config.go`, `loki.go`) -/

/-- Go `maxStreamLine = 1024 * 4`. -/
def maxStreamLine : Nat := 1024 * 4

/-- Go `pushApi`. -/
def pushApi : String := "/loki/api/v1/push"

/-- Go `readyApi`. -/
def readyApi : String := "/ready"

/-- Go `logLabel`: one rule of the table; `Labels` is a map value (nil when the
configuration gives none). -/
structure logLabel where
  Tag : String
  Labels : Option Nat
  deriving DecidableEq, Repr

/-- Go `config`. -/
structure config where
  SyslogBind : String
  LokiServer : String
  ScrapeConfig : List logLabel
  deriving DecidableEq, Repr

/-- Go `lokiStream`: a label map value and the entries `[timestamp, line]`.  `Values` is a
list: every fragment is built by `Push` with a one-element slice of capacity one, so an
`append` in `makeOrder` always copies and never writes into the slice of another fragment. -/
structure lokiStream where
  Stream : Option Nat
  Values : List (String × String)
  deriving DecidableEq, Repr

/-- Go `lokiPushStreams`. -/
structure lokiPushStreams where
  Streams : List lokiStream
  deriving DecidableEq, Repr

/-- Go `lokiClient`, the fields the scheduler loop owns. -/
structure lokiClient where
  cfg : config
  ready : Bool
  flushStreams : lokiPushStreams
  deriving DecidableEq, Repr

/-! ## Batcher / merger -/

/-- Inner loop of `makeOrder`: scan the streams placed so far for the first one whose label
map is deeply equal to that of `v1`; when found, append the values of `v1` to it and stop.
The first component is the flag `find`. -/
def mergeLoop (h : Heap) (v1 : lokiStream) : List lokiStream → Bool × List lokiStream
  | [] => (false, [])
  | v2 :: rest =>
    if DeepEqual h v1.Stream v2.Stream then
      (true, { Stream := v2.Stream, Values := v2.Values ++ v1.Values } :: rest)
    else
      ((mergeLoop h v1 rest).1, v2 :: (mergeLoop h v1 rest).2)

/-- One iteration of the outer loop of `makeOrder`. -/
def makeOrderStep (h : Heap) (rt : lokiPushStreams) (v1 : lokiStream) : lokiPushStreams :=
  let r := mergeLoop h v1 rt.Streams
  if r.1 = false then
    { Streams := r.2 ++ [{ Stream := v1.Stream, Values := v1.Values }] }
  else
    { Streams := r.2 }

/-- Go `makeOrder`: put fragments with the same labels into the same stream. -/
def makeOrder (h : Heap) (logStreams : List lokiStream) : lokiPushStreams :=
  logStreams.foldl (makeOrderStep h) { Streams := [] }

/-- Go slice expression `s[lo:hi]`; out-of-range bounds panic. -/
def slice {α : Type} (s : List α) (lo hi : Nat) : Option (List α) :=
  if lo ≤ hi ∧ hi ≤ s.length then some ((s.drop lo).take (hi - lo)) else none

/-- Body of the loop of `splitStreams` for index `i`. -/
def splitStep (h : Heap) (streams : List lokiStream) (batch : Nat)
    (rt : List lokiPushStreams) (i : Nat) : Option (List lokiPushStreams) :=
  if i < batch - 1 then
    (slice streams (i * maxStreamLine) ((i + 1) * maxStreamLine)).map
      (fun c => rt ++ [makeOrder h c])
  else
    (slice streams (i * maxStreamLine) streams.length).map
      (fun c => rt ++ [makeOrder h c])

/-- Go `splitStreams`: split the accumulated streams into batches of fixed size, each merged
by `makeOrder`. -/
def splitStreams (h : Heap) (k : lokiClient) : Option (List lokiPushStreams) :=
  let batch := k.flushStreams.Streams.length / maxStreamLine + 1
  (List.range batch).foldlM (splitStep h k.flushStreams.Streams batch) []

/-- Total number of entries of a list of streams. -/
def entryCount (l : List lokiStream) : Nat := (l.map (fun s => s.Values.length)).sum

/-- Total number of entries of a list of batches. -/
def batchEntryCount (bs : List lokiPushStreams) : Nat :=
  (bs.map (fun b => entryCount b.Streams)).sum

/-! ## The outside world -/

/-- Severity of a log line written through `slog`. -/
inductive LogLevel
  | debug
  | info
  | warn
  deriving DecidableEq, Repr

/-- Go `requestConfig`. -/
structure requestConfig where
  Url : String
  Headers : List (String × String)
  Parameters : List (String × String)
  Body : Option String
  deriving DecidableEq, Repr

/-- Library and network behaviour the program depends on.  An `error` result carries the
text of `Error()`. -/
structure Env where
  /-- Go `url.Parse`: an error, or the `Scheme` of the parsed URL. -/
  urlParse : String → Except String String
  /-- Go `json.Marshal` of a batch (label maps are read from the heap). -/
  jsonMarshal : Heap → lokiPushStreams → Except String String
  /-- Go `http.NewRequest(method, url, body)`: the error it returns, if any. -/
  newRequest : String → String → Option String
  /-- Go `client.Do` for the `n`-th request of the current operation: a transport error, or
  the body and status code of the response. -/
  clientDo : Nat → String → requestConfig → Except String (String × Nat)
  /-- Go `fmt.Sprintf(template, args...)`. -/
  Sprintf : String → List Value → String
  /-- Go `fmt.Sprint(args...)` for an operand list. -/
  SprintArgs : List Value → String
  /-- Go `time.Now().UnixNano()`. -/
  nowUnixNano : Int
  /-- Go `time.ParseInLocation(layout, s, time.Local)` followed by `UnixNano()`; the error is
  discarded by the program. -/
  parseUnixNano : String → Int

/-! ## Delivery client -/

/-- Go `sendHttpRequest`: body, status code and error (`none` is the nil error).  A response
with any status code is returned with a nil error. -/
def sendHttpRequest (env : Env) (n : Nat) (httpMethod : String) (reqCfg : requestConfig) :
    String × Nat × Option String :=
  match env.newRequest httpMethod reqCfg.Url with
  | none =>
    match env.clientDo n httpMethod reqCfg with
    | .ok (body, status) => (body, status, none)
    | .error errc => ("", 0, some errc)
  | some errh => ("", 0, some errh)

/-- Go `http.StatusOK`. -/
def StatusOK : Nat := 200

/-- The retry loop of `setLokiReadyStatus`, at attempt `i` with `n` attempts left.  In the
`else` branch the program evaluates `eh.Error()`; on a nil `eh` that is a nil dereference,
a panic (`none`). -/
def readyLoop (env : Env) (k : lokiClient) (reqCfg : requestConfig) :
    Nat → Nat → List (LogLevel × String) → Option (lokiClient × List (LogLevel × String))
  | _, 0, log => some ({ k with ready := false }, log)
  | i, n + 1, log =>
    match sendHttpRequest env i "GET" reqCfg with
    | (_, status, eh) =>
      if eh = none ∧ status = StatusOK then
        some ({ k with ready := true }, log)
      else
        match eh with
        | none => none
        | some msg =>
          readyLoop env k reqCfg (i + 1) n
            (log ++ [(LogLevel.warn, "[LokiClient]" ++ "Loki Server " ++ k.cfg.LokiServer ++
              " is not ready,err=" ++ msg ++ " http status=" ++ toString status)])

/-- Go `setLokiReadyStatus`: the new client state and the log lines written, or `none` when
the program panics. -/
def setLokiReadyStatus (env : Env) (k : lokiClient) :
    Option (lokiClient × List (LogLevel × String)) :=
  match env.urlParse (k.cfg.LokiServer ++ readyApi) with
  | .error _ =>
    some ({ k with ready := false },
      [(LogLevel.warn, "[LokiClient]" ++ "Loki Server is not ready,LokiServer " ++
        k.cfg.LokiServer ++ " format(like http://loki:3100) is wrong.")])
  | .ok scheme =>
    if scheme ≠ "http" ∧ scheme ≠ "https" then
      some ({ k with ready := false },
        [(LogLevel.warn, "[LokiClient]" ++ "Loki Server is not ready,LokiServer " ++
          k.cfg.LokiServer ++ " format(like http(https)://loki:3100) is wrong.")])
    else
      readyLoop env k
        { Url := k.cfg.LokiServer ++ readyApi, Headers := [], Parameters := [], Body := none }
        0 3 []

/-! ## Scheduler: flush -/

/-- The largest number of entries of one stream (`maxCnt` of the success branch). -/
def maxCnt (l : List lokiStream) : Nat :=
  l.foldl (fun m v => if m < v.Values.length then v.Values.length else m) 0

/-- The request `flush` builds for a serialised batch `b`. -/
def pushRequest (k : lokiClient) (b : String) : requestConfig :=
  { Url := k.cfg.LokiServer ++ pushApi,
    Headers := [("Content-Type", "application/json")],
    Parameters := [], Body := some b }

/-- The delivery loop of `flush` from batch index `i` on.  The flag is `true` when the loop
ran to its end and `false` when the function returned from inside the loop. -/
def flushLoop (env : Env) (h : Heap) (k : lokiClient) :
    Nat → List lokiPushStreams → List (LogLevel × String) → Bool × List (LogLevel × String)
  | _, [], log => (true, log)
  | i, orderLog :: rest, log =>
    match env.jsonMarshal h orderLog with
    | .error e =>
      (false, log ++ [(LogLevel.warn, "[LokiClient]" ++ "json.Marshal lokiPushStreams fail:" ++ e)])
    | .ok b =>
      match (sendHttpRequest env i "POST" (pushRequest k b)).2.2 with
      | some eh =>
        (false, log ++ [(LogLevel.warn, "[LokiClient]" ++ "SendHttpRequest fail:" ++ eh)])
      | none =>
        flushLoop env h k (i + 1) rest
          (log ++ [(LogLevel.debug, "[LokiClient]" ++ "Push log to LokiServer success:" ++
            toString (entryCount orderLog.Streams) ++ " item(s) in " ++
            toString orderLog.Streams.length ++ " stream(s),max items of stream =" ++
            toString (maxCnt orderLog.Streams))])

/-- Go `flush`: the new client state and the log lines written (`none`: a panic). -/
def flush (env : Env) (h : Heap) (k : lokiClient) :
    Option (lokiClient × List (LogLevel × String)) :=
  if k.flushStreams.Streams.length = 0 then some (k, [])
  else if k.ready = false then
    some (k, [(LogLevel.warn, "[LokiClient]" ++ "loki is not ready")])
  else
    match splitStreams h k with
    | none => none
    | some orderLogs =>
      match flushLoop env h k 0 orderLogs [] with
      | (true, log) => some ({ k with flushStreams := { Streams := [] } }, log)
      | (false, log) => some (k, log)

/-- The `case stream := <-k.logChan` branch of `run`: append the fragment to the cache. -/
def runRecv (k : lokiClient) (stream : lokiStream) : lokiClient :=
  { k with flushStreams := { Streams := k.flushStreams.Streams ++ [stream] } }

/-! ## Label resolver and `Push` -/

/-- The loop of `getLabels` over the rule table. -/
def getLabelsLoop (tag : String) : List logLabel → Option Nat × Bool
  | [] => (none, false)
  | s :: rest => if s.Tag = tag then (s.Labels, true) else getLabelsLoop tag rest

/-- Go `getLabels`: the label map of the first rule whose `Tag` equals `tag`. -/
def getLabels (k : lokiClient) (tag : String) : Option Nat × Bool :=
  getLabelsLoop tag k.cfg.ScrapeConfig

/-- Go map index `m[key]` on an `interface{}` map: the nil interface for a missing key. -/
def index (m : GoMap) (key : String) : Value := (Finmap.lookup key m).getD Value.null

/-- Go `getMessage`. -/
def getMessage (env : Env) (template : String) (fmtArgs : List Value) : String :=
  if fmtArgs.length = 0 then template
  else if template ≠ "" then env.Sprintf template fmtArgs
  else
    match fmtArgs with
    | [Value.str s] => s
    | _ => env.SprintArgs fmtArgs

/-- The label search of `Push` (the block that sets `ls.Stream` and `tag`); `fresh` is the
map made at the start of `Push`. -/
def pushResolve (k : lokiClient) (fresh : Nat) (log : GoMap) : Option Nat × String :=
  match Finmap.lookup "tag" log with
  | none => (some fresh, "")
  | some v =>
    if v ≠ Value.str "" then
      match getLabels k (Sprint v) with
      | (labelsByTag, true) => (labelsByTag, Sprint v)
      | (_, false) =>
        let client := Split (Sprint (index log "client")) ':'
        if client.length = 2 then
          match getLabels k (client.getD 0 "") with
          | (labelsByIp, true) => (labelsByIp, client.getD 0 "")
          | (_, false) => (some fresh, client.getD 0 "")
        else (some fresh, "")
    else (some fresh, "")

/-- The statement `if v, ok := log[key]; ok then ls.Stream[key] = v`. -/
def copyField (log : GoMap) (key : String) (stream : Option Nat) (h : Heap) : Option Heap :=
  match Finmap.lookup key log with
  | some v => mapAssign h stream key v
  | none => some h

/-- Go `Push`: the heap after the call and the fragment sent to `logChan` (`none`: a panic,
which an assignment into a nil label map raises). -/
def Push (env : Env) (h : Heap) (k : lokiClient) (log : GoMap) : Option (Heap × lokiStream) :=
  let fresh := makeMap h
  let r := pushResolve k fresh.2 log
  (mapAssign fresh.1 r.1 "tag" (Value.str r.2)).bind fun h1 =>
  (copyField log "severity" r.1 h1).bind fun h2 =>
  (copyField log "facility" r.1 h2).bind fun h3 =>
  (copyField log "hostname" r.1 h3).bind fun h4 =>
  (copyField log "priority" r.1 h4).bind fun h5 =>
  let ts : Int :=
    match Finmap.lookup "timestamp" log with
    | some timestamp => env.parseUnixNano (Sprint timestamp)
    | none => env.nowUnixNano
  some (h5, { Stream := r.1,
              Values := [(toString ts, getMessage env "%s" [index log "content"])] })

/-! ## Specification vocabulary -/

/-- The label set a fragment carries in heap `h`: the contents of its label map. -/
def labelsOf (h : Heap) (s : lokiStream) : Option GoMap := view h s.Stream

/-- Concatenation, in input order, of the values of all fragments of `xs` whose label set
is `L`. -/
def valuesOf (h : Heap) (L : Option GoMap) (xs : List lokiStream) : List (String × String) :=
  ((xs.filter (fun x => decide (labelsOf h x = L))).map (fun x => x.Values)).flatten

/-- What the inner loop of `makeOrder` does to one placed stream when it matches `v1`. -/
def absorb (h : Heap) (v1 : lokiStream) (v2 : lokiStream) : lokiStream :=
  if DeepEqual h v1.Stream v2.Stream then
    { Stream := v2.Stream, Values := v2.Values ++ v1.Values }
  else v2

/-- Batch `b`, the `i`-th of a flush cycle, is serialised and its POST comes back with a
response, whatever the status code (`sendHttpRequest` returns a nil error). -/
def postCompletes (env : Env) (h : Heap) (k : lokiClient) (i : Nat) (b : lokiPushStreams) :
    Bool :=
  match env.jsonMarshal h b with
  | .error _ => false
  | .ok body => decide ((sendHttpRequest env i "POST" (pushRequest k body)).2.2 = none)

/-- Batch `b`, the `i`-th of a flush cycle, is delivered: it is serialised and its POST is
answered, with no error, by a 2xx status code. -/
def postDelivered (env : Env) (h : Heap) (k : lokiClient) (i : Nat) (b : lokiPushStreams) :
    Bool :=
  match env.jsonMarshal h b with
  | .error _ => false
  | .ok body =>
    match sendHttpRequest env i "POST" (pushRequest k body) with
    | (_, status, eh) => decide (eh = none ∧ 200 ≤ status ∧ status < 300)

/-- Batch `b`, the `i`-th of a flush cycle, fails with an error: it cannot be serialised, or
`sendHttpRequest` returns a non-nil error for its POST. -/
def postErrors (env : Env) (h : Heap) (k : lokiClient) (i : Nat) (b : lokiPushStreams) :
    Bool :=
  match env.jsonMarshal h b with
  | .error _ => true
  | .ok body => (sendHttpRequest env i "POST" (pushRequest k body)).2.2.isSome

/-- The label map after `Push` copied the field `key` of the record, when it is present. -/
def withField (log : GoMap) (key : String) (m : GoMap) : GoMap :=
  match Finmap.lookup key log with
  | some v => Finmap.insert key v m
  | none => m

/-- The label map after `Push` wrote the tag and the four copied fields into `m`. -/
def withRecord (log : GoMap) (tag : String) (m : GoMap) : GoMap :=
  withField log "priority" (withField log "hostname" (withField log "facility"
    (withField log "severity" (Finmap.insert "tag" (Value.str tag) m))))

/-- Invariant of the outer loop of `makeOrder` after the fragments `xs` were processed. -/
structure MergeInv (h : Heap) (xs : List lokiStream) (rt : List lokiStream) : Prop where
  nodup : (rt.map (labelsOf h)).Nodup
  vals : ∀ s ∈ rt, s.Values = valuesOf h (labelsOf h s) xs
  cover : ∀ x ∈ xs, labelsOf h x ∈ rt.map (labelsOf h)
  sound : ∀ s ∈ rt, labelsOf h s ∈ xs.map (labelsOf h)

/-! ## Concrete inputs -/

/-- A configuration with one rule, tag `app1`, whose label map is the object at address 0. -/
def exConfig : config :=
  { SyslogBind := "0.0.0.0:514", LokiServer := "http://loki:3100",
    ScrapeConfig := [{ Tag := "app1", Labels := some 0 }] }

/-- A heap whose object 0 is the label map `service = app1`. -/
def exHeap : Heap := [Finmap.insert "service" (Value.str "app1") ∅]

/-- A fragment with one entry, labelled by the map object 0. -/
def exFragment : lokiStream := { Stream := some 0, Values := [("1700000000000000000", "hello")] }

/-- A ready client holding exactly `maxStreamLine` fragments. -/
def exFullClient : lokiClient :=
  { cfg := exConfig, ready := true,
    flushStreams := { Streams := List.replicate 4096 exFragment } }

/-- Two fragments with the same labels, in arrival order. -/
def exPair : List lokiStream :=
  [{ Stream := some 0, Values := [("1", "first")] },
   { Stream := some 0, Values := [("2", "second")] }]

/-- A ready client holding one fragment. -/
def exOneClient : lokiClient :=
  { cfg := exConfig, ready := true, flushStreams := { Streams := [exFragment] } }

/-- A client with an empty cache. -/
def exClient : lokiClient :=
  { cfg := exConfig, ready := false, flushStreams := { Streams := [] } }

/-- An outside world in which the sink URL parses with scheme `http`, batches serialise and
every request comes back with an empty body and status 200. -/
def exEnv : Env :=
  { urlParse := fun _ => Except.ok "http",
    jsonMarshal := fun _ _ => Except.ok "json",
    newRequest := fun _ _ => none,
    clientDo := fun _ _ _ => Except.ok ("", 200),
    Sprintf := fun _ args => match args with
      | [Value.str s] => s
      | _ => "",
    SprintArgs := fun _ => "",
    nowUnixNano := 1700000000000000000,
    parseUnixNano := fun _ => 1700000000000000000 }

/-- As `exEnv`, but every request comes back with the given status code. -/
def exEnvStatus (status : Nat) : Env :=
  { exEnv with clientDo := fun _ _ _ => Except.ok ("", status) }

/-- As `exEnv`, but every request fails in the transport. -/
def exEnvRefused : Env :=
  { exEnv with clientDo := fun _ _ _ => Except.error "connection refused" }

/-- As `exEnv`, but no batch can be serialised. -/
def exEnvNoJson : Env :=
  { exEnv with jsonMarshal := fun _ _ => Except.error "unsupported value" }

/-- A configuration with one rule keyed by a source host. -/
def exRouterClient : lokiClient :=
  { cfg := { SyslogBind := "0.0.0.0:514", LokiServer := "http://loki:3100",
             ScrapeConfig := [{ Tag := "10.0.0.1", Labels := some 0 }] },
    ready := true, flushStreams := { Streams := [] } }

/-- A heap whose object 0 is the label map `service = router`. -/
def exRouterHeap : Heap := [Finmap.insert "service" (Value.str "router") ∅]

/-- A record with an empty tag sent from `10.0.0.1:514`. -/
def exLogEmptyTag : GoMap :=
  Finmap.insert "tag" (Value.str "") (Finmap.insert "client" (Value.str "10.0.0.1:514")
    (Finmap.insert "content" (Value.str "hello") ∅))

/-- A record without a tag field sent from `10.0.0.1:514`. -/
def exLogNoTag : GoMap :=
  Finmap.insert "client" (Value.str "10.0.0.1:514")
    (Finmap.insert "content" (Value.str "hello") ∅)

/-- A record whose tag matches no rule, sent from `10.0.0.1:514`. -/
def exLogOtherTag : GoMap :=
  Finmap.insert "tag" (Value.str "sshd") (Finmap.insert "client" (Value.str "10.0.0.1:514")
    (Finmap.insert "severity" (Value.int 3) (Finmap.insert "content" (Value.str "hello") ∅)))

/-- A record with tag `app1` and severity 3. -/
def exLogSev3 : GoMap :=
  Finmap.insert "tag" (Value.str "app1") (Finmap.insert "severity" (Value.int 3)
    (Finmap.insert "content" (Value.str "disk full") ∅))

/-- A record with tag `app1` and severity 6. -/
def exLogSev6 : GoMap :=
  Finmap.insert "tag" (Value.str "app1") (Finmap.insert "severity" (Value.int 6)
    (Finmap.insert "content" (Value.str "started") ∅))

/-- The heap after `exLogSev3` was pushed on `exHeap`. -/
def exHeapSev3 : Heap :=
  [Finmap.insert "severity" (Value.int 3) (Finmap.insert "tag" (Value.str "app1")
    (Finmap.insert "service" (Value.str "app1") ∅)), ∅]

/-- The heap after `exLogSev6` was pushed on `exHeapSev3`. -/
def exHeapSev6 : Heap :=
  [Finmap.insert "severity" (Value.int 6) (Finmap.insert "tag" (Value.str "app1")
    (Finmap.insert "service" (Value.str "app1") ∅)), ∅, ∅]

/-! ## Theorems: merging (`makeOrder`) -/

theorem DeepEqual_iff (h : Heap) (a b : Option Nat) :
    DeepEqual h a b = true ↔ view h a = view h b := by
  cases a <;> cases b <;> simp [DeepEqual, view]
  intro hxy
  rw [hxy]

theorem DeepEqual_eq_false_iff (h : Heap) (a b : Option Nat) :
    DeepEqual h a b = false ↔ view h a ≠ view h b := by
  rw [Ne, ← DeepEqual_iff, Bool.not_eq_true]

theorem labelsOf_absorb (h : Heap) (v s : lokiStream) :
    labelsOf h (absorb h v s) = labelsOf h s := by
  unfold absorb
  split <;> rfl

theorem map_labelsOf_absorb (h : Heap) (v : lokiStream) (rt : List lokiStream) :
    (rt.map (absorb h v)).map (labelsOf h) = rt.map (labelsOf h) := by
  rw [List.map_map]
  apply List.map_congr_left
  intro s _
  exact labelsOf_absorb h v s

/-- The flag `find` says whether a placed stream carries the labels of `v`. -/
theorem mergeLoop_fst (h : Heap) (v : lokiStream) (rt : List lokiStream) :
    (mergeLoop h v rt).1 = true ↔ labelsOf h v ∈ rt.map (labelsOf h) := by
  induction rt with
  | nil => simp [mergeLoop]
  | cons v2 rest ih =>
    unfold mergeLoop
    by_cases hd : DeepEqual h v.Stream v2.Stream = true
    · have hv := (DeepEqual_iff h _ _).1 hd
      simp [hd, labelsOf, hv]
    · have hv : ¬ view h v.Stream = view h v2.Stream := fun e => hd ((DeepEqual_iff h _ _).2 e)
      simp only [hd, if_false, Bool.false_eq_true]
      rw [ih]
      simp [labelsOf, hv]

/-- The labels of the placed streams are not touched by the inner loop. -/
theorem mergeLoop_snd_labels (h : Heap) (v : lokiStream) (rt : List lokiStream) :
    ((mergeLoop h v rt).2).map (fun s => s.Stream) = rt.map (fun s => s.Stream) := by
  induction rt with
  | nil => simp [mergeLoop]
  | cons v2 rest ih =>
    unfold mergeLoop
    split
    · simp
    · simp [ih]

/-- With pairwise different labels, updating the first match is updating every match. -/
theorem mergeLoop_snd (h : Heap) (v : lokiStream) (rt : List lokiStream)
    (hn : (rt.map (labelsOf h)).Nodup) :
    (mergeLoop h v rt).2 = rt.map (absorb h v) := by
  induction rt with
  | nil => simp [mergeLoop]
  | cons v2 rest ih =>
    rw [List.map_cons, List.nodup_cons] at hn
    unfold mergeLoop
    by_cases hd : DeepEqual h v.Stream v2.Stream = true
    · have hv := (DeepEqual_iff h _ _).1 hd
      simp only [hd, if_true, List.map_cons]
      have hrest : rest.map (absorb h v) = rest := by
        conv_rhs => rw [← List.map_id rest]
        apply List.map_congr_left
        intro s hs
        unfold absorb
        have hne : DeepEqual h v.Stream s.Stream = false := by
          rw [DeepEqual_eq_false_iff]
          intro e
          apply hn.1
          have : labelsOf h v2 = labelsOf h s := by
            unfold labelsOf
            rw [← hv, e]
          rw [this]
          exact List.mem_map_of_mem _ hs
        simp [hne]
      rw [hrest]
      simp [absorb, hd]
    · simp only [hd, if_false, Bool.false_eq_true, List.map_cons]
      rw [ih hn.2]
      simp [absorb, hd]

theorem valuesOf_concat (h : Heap) (L : Option GoMap) (xs : List lokiStream) (v : lokiStream) :
    valuesOf h L (xs ++ [v]) = valuesOf h L xs ++ (if labelsOf h v = L then v.Values else []) := by
  unfold valuesOf
  rw [List.filter_append, List.map_append, List.flatten_append]
  by_cases hv : labelsOf h v = L
  · simp [List.filter, hv]
  · simp [List.filter, hv]

theorem valuesOf_eq_nil (h : Heap) (L : Option GoMap) (xs : List lokiStream)
    (hL : L ∉ xs.map (labelsOf h)) : valuesOf h L xs = [] := by
  unfold valuesOf
  have : xs.filter (fun x => decide (labelsOf h x = L)) = [] := by
    rw [List.filter_eq_nil_iff]
    intro x hx
    simp only [decide_eq_true_eq]
    intro e
    exact hL (e ▸ List.mem_map_of_mem _ hx)
  rw [this]
  rfl

theorem makeOrderStep_streams (h : Heap) (rt : List lokiStream) (v : lokiStream)
    (hn : (rt.map (labelsOf h)).Nodup) :
    (makeOrderStep h { Streams := rt } v).Streams =
      if labelsOf h v ∈ rt.map (labelsOf h) then rt.map (absorb h v)
      else rt.map (absorb h v) ++ [{ Stream := v.Stream, Values := v.Values }] := by
  unfold makeOrderStep
  simp only
  rw [mergeLoop_snd h v rt hn]
  by_cases hm : labelsOf h v ∈ rt.map (labelsOf h)
  · have hf := (mergeLoop_fst h v rt).2 hm
    rw [if_pos hm, hf]
    simp
  · have hf : (mergeLoop h v rt).1 = false := by
      rw [← Bool.not_eq_true]
      exact fun e => hm ((mergeLoop_fst h v rt).1 e)
    rw [if_neg hm, hf]
    simp

theorem absorb_values (h : Heap) (v s : lokiStream) :
    (absorb h v s).Values = s.Values ++ (if labelsOf h v = labelsOf h s then v.Values else []) := by
  unfold absorb
  by_cases hd : DeepEqual h v.Stream s.Stream = true
  · have hv : labelsOf h v = labelsOf h s := (DeepEqual_iff h _ _).1 hd
    simp [hd, hv]
  · have hv : ¬ labelsOf h v = labelsOf h s := fun e => hd ((DeepEqual_iff h _ _).2 e)
    simp [hd, hv]

/-- One iteration of the outer loop keeps the invariant. -/
theorem MergeInv_step (h : Heap) (xs rt : List lokiStream) (v : lokiStream)
    (inv : MergeInv h xs rt) :
    MergeInv h (xs ++ [v]) (makeOrderStep h { Streams := rt } v).Streams := by
  rw [makeOrderStep_streams h rt v inv.nodup]
  have hval : ∀ s ∈ rt, (absorb h v s).Values =
      valuesOf h (labelsOf h (absorb h v s)) (xs ++ [v]) := by
    intro s hs
    rw [absorb_values, labelsOf_absorb, valuesOf_concat, inv.vals s hs]
  by_cases hm : labelsOf h v ∈ rt.map (labelsOf h)
  · rw [if_pos hm]
    refine ⟨?_, ?_, ?_, ?_⟩
    · rw [map_labelsOf_absorb]
      exact inv.nodup
    · intro s hs
      obtain ⟨t, ht, rfl⟩ := List.mem_map.1 hs
      exact hval t ht
    · intro x hx
      rw [map_labelsOf_absorb]
      rcases List.mem_append.1 hx with hx | hx
      · exact inv.cover x hx
      · rw [List.mem_singleton.1 hx]
        exact hm
    · intro s hs
      obtain ⟨t, ht, rfl⟩ := List.mem_map.1 hs
      rw [labelsOf_absorb, List.map_append]
      exact List.mem_append_left _ (inv.sound t ht)
  · rw [if_neg hm]
    have hv : labelsOf h ({ Stream := v.Stream, Values := v.Values } : lokiStream) =
        labelsOf h v := rfl
    refine ⟨?_, ?_, ?_, ?_⟩
    · rw [List.map_append, map_labelsOf_absorb, List.map_singleton, hv]
      rw [List.nodup_append]
      refine ⟨inv.nodup, List.nodup_singleton _, ?_⟩
      intro L hL hL2
      rw [List.mem_singleton.1 hL2] at hL
      exact hm hL
    · intro s hs
      rcases List.mem_append.1 hs with hs | hs
      · obtain ⟨t, ht, rfl⟩ := List.mem_map.1 hs
        exact hval t ht
      · rw [List.mem_singleton.1 hs, hv, valuesOf_concat, if_pos rfl]
        rw [valuesOf_eq_nil h _ xs]
        · rfl
        · intro hx
          obtain ⟨x, hx, hxe⟩ := List.mem_map.1 hx
          exact hm (hxe ▸ inv.cover x hx)
    · intro x hx
      rw [List.map_append, map_labelsOf_absorb, List.map_singleton, hv]
      rcases List.mem_append.1 hx with hx | hx
      · exact List.mem_append_left _ (inv.cover x hx)
      · rw [List.mem_singleton.1 hx]
        exact List.mem_append_right _ (List.mem_singleton.2 rfl)
    · intro s hs
      rw [List.map_append]
      rcases List.mem_append.1 hs with hs | hs
      · obtain ⟨t, ht, rfl⟩ := List.mem_map.1 hs
        rw [labelsOf_absorb]
        exact List.mem_append_left _ (inv.sound t ht)
      · rw [List.mem_singleton.1 hs, hv]
        exact List.mem_append_right _ (by simp)

theorem makeOrder_concat (h : Heap) (xs : List lokiStream) (v : lokiStream) :
    makeOrder h (xs ++ [v]) = makeOrderStep h (makeOrder h xs) v := by
  unfold makeOrder
  rw [List.foldl_concat]

/-- The invariant holds for the result of `makeOrder`. -/
theorem MergeInv_makeOrder (h : Heap) (xs : List lokiStream) :
    MergeInv h xs (makeOrder h xs).Streams := by
  induction xs using List.reverseRecOn with
  | nil =>
    refine ⟨?_, ?_, ?_, ?_⟩ <;> simp [makeOrder]
  | append_singleton xs v ih =>
    rw [makeOrder_concat]
    exact MergeInv_step h xs _ v ih

theorem entryCount_append (a b : List lokiStream) :
    entryCount (a ++ b) = entryCount a + entryCount b := by
  simp [entryCount]

theorem mergeLoop_length (h : Heap) (v : lokiStream) (rt : List lokiStream) :
    (mergeLoop h v rt).2.length = rt.length := by
  induction rt with
  | nil => simp [mergeLoop]
  | cons v2 rest ih =>
    unfold mergeLoop
    split
    · simp
    · simp [ih]

theorem mergeLoop_entryCount (h : Heap) (v : lokiStream) (rt : List lokiStream) :
    entryCount (mergeLoop h v rt).2 =
      entryCount rt + (if (mergeLoop h v rt).1 = true then v.Values.length else 0) := by
  induction rt with
  | nil => simp [mergeLoop, entryCount]
  | cons v2 rest ih =>
    unfold mergeLoop
    by_cases hd : DeepEqual h v.Stream v2.Stream = true
    · simp [hd, entryCount]
      omega
    · simp only [hd, if_false, Bool.false_eq_true]
      have e1 : entryCount (v2 :: (mergeLoop h v rest).2) =
          v2.Values.length + entryCount (mergeLoop h v rest).2 := by simp [entryCount]
      have e2 : entryCount (v2 :: rest) = v2.Values.length + entryCount rest := by
        simp [entryCount]
      rw [e1, e2, ih]
      omega

theorem makeOrderStep_entryCount (h : Heap) (rt : lokiPushStreams) (v : lokiStream) :
    entryCount (makeOrderStep h rt v).Streams = entryCount rt.Streams + v.Values.length := by
  unfold makeOrderStep
  simp only
  have hc := mergeLoop_entryCount h v rt.Streams
  cases hf : (mergeLoop h v rt.Streams).1
  · rw [hf] at hc
    simp only [if_true]
    rw [entryCount_append, hc]
    simp [entryCount]
  · rw [hf] at hc
    simp only [Bool.true_eq_false, if_false]
    rw [hc]
    simp

theorem makeOrderStep_length (h : Heap) (rt : lokiPushStreams) (v : lokiStream) :
    (makeOrderStep h rt v).Streams.length ≤ rt.Streams.length + 1 := by
  unfold makeOrderStep
  simp only
  split
  · simp [mergeLoop_length]
  · simp [mergeLoop_length]

/-- Merging neither creates nor drops an entry. -/
theorem makeOrder_entryCount (h : Heap) (xs : List lokiStream) :
    entryCount (makeOrder h xs).Streams = entryCount xs := by
  induction xs using List.reverseRecOn with
  | nil => simp [makeOrder, entryCount]
  | append_singleton xs v ih =>
    rw [makeOrder_concat, makeOrderStep_entryCount, ih, entryCount_append]
    simp [entryCount]

/-- Merging never yields more streams than it was given fragments. -/
theorem makeOrder_length_le (h : Heap) (xs : List lokiStream) :
    (makeOrder h xs).Streams.length ≤ xs.length := by
  induction xs using List.reverseRecOn with
  | nil => simp [makeOrder]
  | append_singleton xs v ih =>
    rw [makeOrder_concat]
    have := makeOrderStep_length h (makeOrder h xs) v
    simp only [List.length_append, List.length_singleton]
    omega

theorem makeOrder_nil (h : Heap) : makeOrder h [] = { Streams := [] } := rfl

/-! ## Theorems: splitting (`splitStreams`) -/

theorem maxStreamLine_pos : 0 < maxStreamLine := by decide

theorem maxStreamLine_eq : maxStreamLine = 4096 := by decide

/-- Every iteration of the loop of `splitStreams` stays inside the slice bounds and appends
the merged chunk that starts at `i * maxStreamLine`. -/
theorem splitStep_eq (h : Heap) (xs : List lokiStream) (rt : List lokiPushStreams) (i : Nat)
    (hi : i < xs.length / maxStreamLine + 1) :
    splitStep h xs (xs.length / maxStreamLine + 1) rt i =
      some (rt ++ [makeOrder h ((xs.drop (i * maxStreamLine)).take maxStreamLine)]) := by
  have hN := maxStreamLine_pos
  have hle : i * maxStreamLine ≤ xs.length :=
    Nat.le_trans (Nat.mul_le_mul_right _ (Nat.lt_succ_iff.1 hi)) (Nat.div_mul_le_self _ _)
  unfold splitStep slice
  by_cases hlast : i < xs.length / maxStreamLine + 1 - 1
  · have h2 : (i + 1) * maxStreamLine ≤ xs.length :=
      Nat.le_trans (Nat.mul_le_mul_right _ (by omega)) (Nat.div_mul_le_self _ _)
    have h3 : i * maxStreamLine ≤ (i + 1) * maxStreamLine :=
      Nat.mul_le_mul_right _ (Nat.le_succ i)
    have h4 : (i + 1) * maxStreamLine - i * maxStreamLine = maxStreamLine := by
      rw [Nat.succ_mul]
      omega
    rw [if_pos hlast, if_pos ⟨h3, h2⟩, h4]
    rfl
  · have hi2 : i = xs.length / maxStreamLine := by omega
    have hlt : xs.length < i * maxStreamLine + maxStreamLine := by
      rw [hi2]
      exact Nat.lt_div_mul_add hN
    rw [if_neg hlast, if_pos ⟨hle, Nat.le_refl _⟩]
    have e1 : (xs.drop (i * maxStreamLine)).take (xs.length - i * maxStreamLine) =
        xs.drop (i * maxStreamLine) :=
      List.take_of_length_le (by rw [List.length_drop])
    have e2 : (xs.drop (i * maxStreamLine)).take maxStreamLine =
        xs.drop (i * maxStreamLine) :=
      List.take_of_length_le (by rw [List.length_drop]; omega)
    rw [e1, e2]
    rfl

theorem splitLoop_eq (h : Heap) (xs : List lokiStream) (m : Nat)
    (hm : m ≤ xs.length / maxStreamLine + 1) :
    (List.range m).foldlM (splitStep h xs (xs.length / maxStreamLine + 1)) [] =
      some ((List.range m).map
        (fun i => makeOrder h ((xs.drop (i * maxStreamLine)).take maxStreamLine))) := by
  induction m with
  | zero => rfl
  | succ m ih =>
    rw [List.range_succ, List.foldlM_append, ih (by omega)]
    simp only [Option.bind_eq_bind, Option.some_bind, List.foldlM_cons, List.foldlM_nil]
    rw [splitStep_eq h xs _ m (by omega)]
    simp

/-- Closed form of `splitStreams`: it never panics and returns the merged chunks in order. -/
theorem splitStreams_eq (h : Heap) (k : lokiClient) :
    splitStreams h k =
      some ((List.range (k.flushStreams.Streams.length / maxStreamLine + 1)).map
        (fun i => makeOrder h
          ((k.flushStreams.Streams.drop (i * maxStreamLine)).take maxStreamLine))) := by
  unfold splitStreams
  exact splitLoop_eq h _ _ (Nat.le_refl _)

theorem chunks_entryCount (xs : List lokiStream) (m : Nat) :
    ((List.range m).map
      (fun i => entryCount ((xs.drop (i * maxStreamLine)).take maxStreamLine))).sum =
      entryCount (xs.take (m * maxStreamLine)) := by
  induction m with
  | zero => simp [entryCount]
  | succ m ih =>
    rw [List.range_succ, List.map_append, List.sum_append, ih, Nat.succ_mul, List.take_add,
      entryCount_append]
    simp

/-! ## Claims about batching and merging -/

/-- C6: for every accumulation set `splitStreams` returns, without a panic,
`len / 4096 + 1` batches; every batch holds at most `maxStreamLine` (4096) streams; a batch
`i` that is not the last one is `makeOrder` of exactly the 4096 fragments at indices
`[i * 4096, (i + 1) * 4096)`, and the last batch is `makeOrder` of the remainder. -/
theorem splitStreams_chunks (h : Heap) (k : lokiClient) :
    maxStreamLine = 4096 ∧
    ∃ bs, splitStreams h k = some bs ∧
      bs.length = k.flushStreams.Streams.length / maxStreamLine + 1 ∧
      ∀ i (hi : i < bs.length),
        (bs.get ⟨i, hi⟩).Streams.length ≤ maxStreamLine ∧
        (i + 1 < bs.length →
          ((k.flushStreams.Streams.drop (i * maxStreamLine)).take maxStreamLine).length
            = maxStreamLine ∧
          bs.get ⟨i, hi⟩ =
            makeOrder h ((k.flushStreams.Streams.drop (i * maxStreamLine)).take maxStreamLine)) ∧
        (i + 1 = bs.length →
          bs.get ⟨i, hi⟩ = makeOrder h (k.flushStreams.Streams.drop (i * maxStreamLine))) := by
  refine ⟨maxStreamLine_eq, _, splitStreams_eq h k, by simp, ?_⟩
  intro i hi
  have hN := maxStreamLine_pos
  have hi2 : i < k.flushStreams.Streams.length / maxStreamLine + 1 := by simpa using hi
  have hget : ((List.range (k.flushStreams.Streams.length / maxStreamLine + 1)).map
        (fun i => makeOrder h
          ((k.flushStreams.Streams.drop (i * maxStreamLine)).take maxStreamLine))).get ⟨i, hi⟩ =
      makeOrder h ((k.flushStreams.Streams.drop (i * maxStreamLine)).take maxStreamLine) := by
    simp
  rw [hget]
  refine ⟨?_, ?_, ?_⟩
  · refine Nat.le_trans (makeOrder_length_le h _) ?_
    rw [List.length_take]
    exact Nat.min_le_left _ _
  · intro hnl
    refine ⟨?_, rfl⟩
    have hnl2 : i + 1 < k.flushStreams.Streams.length / maxStreamLine + 1 := by simpa using hnl
    have h2 : (i + 1) * maxStreamLine ≤ k.flushStreams.Streams.length :=
      Nat.le_trans (Nat.mul_le_mul_right _ (by omega)) (Nat.div_mul_le_self _ _)
    rw [List.length_take, List.length_drop, Nat.succ_mul] at *
    omega
  · intro hl
    have hl2 : i + 1 = k.flushStreams.Streams.length / maxStreamLine + 1 := by simpa using hl
    have hlt : k.flushStreams.Streams.length < i * maxStreamLine + maxStreamLine := by
      have := Nat.lt_div_mul_add (a := k.flushStreams.Streams.length) hN
      have hi3 : i = k.flushStreams.Streams.length / maxStreamLine := by omega
      rw [hi3]
      exact this
    rw [List.take_of_length_le]
    rw [List.length_drop]
    omega

/-- C7: entry conservation.  For every accumulation set `splitStreams` returns batches, and
the number of entries summed over all streams of all batches equals the number of entries
summed over all fragments of the accumulation set. -/
theorem splitStreams_entryCount (h : Heap) (k : lokiClient) :
    ∃ bs, splitStreams h k = some bs ∧
      batchEntryCount bs = entryCount k.flushStreams.Streams := by
  refine ⟨_, splitStreams_eq h k, ?_⟩
  unfold batchEntryCount
  rw [List.map_map]
  have hfun : ((fun b : lokiPushStreams => entryCount b.Streams) ∘
      (fun i => makeOrder h
        ((k.flushStreams.Streams.drop (i * maxStreamLine)).take maxStreamLine))) =
      (fun i => entryCount ((k.flushStreams.Streams.drop (i * maxStreamLine)).take
        maxStreamLine)) := by
    funext i
    exact makeOrder_entryCount h _
  rw [hfun, chunks_entryCount]
  rw [List.take_of_length_le]
  have := Nat.lt_div_mul_add (a := k.flushStreams.Streams.length) maxStreamLine_pos
  rw [Nat.succ_mul]
  omega

/-- C8: post-merge uniqueness.  In the batch returned by `makeOrder` no two streams at
different positions have deeply equal label maps (in either argument order), and the same
holds in every batch returned by `splitStreams`. -/
theorem makeOrder_labels_unique (h : Heap) (logStreams : List lokiStream) (k : lokiClient) :
    List.Pairwise
      (fun a b => DeepEqual h a.Stream b.Stream = false ∧ DeepEqual h b.Stream a.Stream = false)
      (makeOrder h logStreams).Streams ∧
    ∃ bs, splitStreams h k = some bs ∧ ∀ b ∈ bs,
      List.Pairwise
        (fun a b => DeepEqual h a.Stream b.Stream = false ∧
          DeepEqual h b.Stream a.Stream = false) b.Streams := by
  have key : ∀ xs : List lokiStream, List.Pairwise
      (fun a b => DeepEqual h a.Stream b.Stream = false ∧ DeepEqual h b.Stream a.Stream = false)
      (makeOrder h xs).Streams := by
    intro xs
    have hn := (MergeInv_makeOrder h xs).nodup
    unfold List.Nodup at hn
    rw [List.pairwise_map] at hn
    refine hn.imp ?_
    intro a b hab
    exact ⟨(DeepEqual_eq_false_iff h _ _).2 hab, (DeepEqual_eq_false_iff h _ _).2 (Ne.symm hab)⟩
  refine ⟨key logStreams, _, splitStreams_eq h k, ?_⟩
  intro b hb
  obtain ⟨i, _, rfl⟩ := List.mem_map.1 hb
  exact key _

theorem filter_labels_singleton (h : Heap) (L : Option GoMap) (rt : List lokiStream)
    (hn : (rt.map (labelsOf h)).Nodup) (hL : L ∈ rt.map (labelsOf h)) :
    ∃ s, s ∈ rt ∧ rt.filter (fun s => decide (labelsOf h s = L)) = [s] := by
  induction rt with
  | nil => simp at hL
  | cons a rest ih =>
    rw [List.map_cons, List.nodup_cons] at hn
    by_cases ha : labelsOf h a = L
    · refine ⟨a, List.mem_cons_self _ _, ?_⟩
      have hrest : rest.filter (fun s => decide (labelsOf h s = L)) = [] := by
        rw [List.filter_eq_nil_iff]
        intro s hs
        simp only [decide_eq_true_eq]
        intro e
        exact hn.1 (by rw [ha, ← e]; exact List.mem_map_of_mem _ hs)
      simp [List.filter, ha, hrest]
    · have hL2 : L ∈ rest.map (labelsOf h) := by
        rcases List.mem_cons.1 hL with e | e
        · exact absurd e.symm ha
        · exact e
      obtain ⟨s, hs, hf⟩ := ih hn.2 hL2
      refine ⟨s, List.mem_cons_of_mem _ hs, ?_⟩
      simp [List.filter, ha, hf]

/-- C9: merge preserves arrival order.  For every chunk passed to `makeOrder` and every
label set `L` carried by a fragment of the chunk, the output holds exactly one stream with
labels `L`, and its values are the concatenation, in input order, of the values of all input
fragments whose labels are `L`. -/
theorem makeOrder_values (h : Heap) (logStreams : List lokiStream) (L : Option GoMap)
    (hL : L ∈ logStreams.map (labelsOf h)) :
    ∃ s, (makeOrder h logStreams).Streams.filter (fun s => decide (labelsOf h s = L)) = [s] ∧
      s.Values = valuesOf h L logStreams := by
  have inv := MergeInv_makeOrder h logStreams
  obtain ⟨x, hx, rfl⟩ := List.mem_map.1 hL
  obtain ⟨s, hs, hf⟩ := filter_labels_singleton h _ _ inv.nodup (inv.cover x hx)
  refine ⟨s, hf, ?_⟩
  have hsl : labelsOf h s = labelsOf h x := by
    have : s ∈ (makeOrder h logStreams).Streams.filter
        (fun s => decide (labelsOf h s = labelsOf h x)) := by
      rw [hf]
      exact List.mem_singleton.2 rfl
    simpa using (List.mem_filter.1 this).2
  rw [inv.vals s hs, hsl]

/-- C9, Scenario B: two single-entry fragments with identical labels yield one stream
holding both values in arrival order. -/
theorem makeOrder_values_witness :
    view exHeap (some 0) ∈ exPair.map (labelsOf exHeap) ∧
    ∃ s, (makeOrder exHeap exPair).Streams.filter
        (fun s => decide (labelsOf exHeap s = view exHeap (some 0))) = [s] ∧
      s.Values = valuesOf exHeap (view exHeap (some 0)) exPair :=
  ⟨by decide, makeOrder_values exHeap exPair (view exHeap (some 0)) (by decide)⟩

/-- Scenario B evaluated: the merged batch is one stream with both values in order. -/
theorem makeOrder_exPair :
    makeOrder exHeap exPair =
      { Streams := [{ Stream := some 0, Values := [("1", "first"), ("2", "second")] }] } := by
  decide

/-- C10 (the code at the failing input): with exactly `maxStreamLine` (4096) fragments
accumulated, `splitStreams` returns two batches, not one, and the second has no stream. -/
theorem splitStreams_full_has_empty_batch :
    splitStreams exHeap exFullClient =
      some [makeOrder exHeap (List.replicate 4096 exFragment), { Streams := [] }] := by
  rw [splitStreams_eq]
  have hlen : exFullClient.flushStreams.Streams.length = 4096 := List.length_replicate _ _
  have hb : exFullClient.flushStreams.Streams.length / maxStreamLine + 1 = 2 := by
    rw [hlen]
    decide
  have hs : exFullClient.flushStreams.Streams = List.replicate 4096 exFragment := rfl
  rw [hb]
  have hr : List.range 2 = [0, 1] := by decide
  rw [hr, List.map_cons, List.map_cons, List.map_nil, Nat.zero_mul, Nat.one_mul, List.drop_zero]
  rw [List.take_of_length_le (by rw [hlen, maxStreamLine_eq])]
  rw [List.drop_eq_nil_of_le (by rw [hlen, maxStreamLine_eq])]
  rw [hs]
  rfl

/-! ## Claims about `flush` and the readiness probe -/

/-- The delivery loop runs to its end exactly when every remaining batch is serialised and
its POST comes back with a response. -/
theorem flushLoop_fst (env : Env) (h : Heap) (k : lokiClient) (bs : List lokiPushStreams) :
    ∀ (i : Nat) (log : List (LogLevel × String)),
      (flushLoop env h k i bs log).1 = true ↔
        ∀ j (hj : j < bs.length), postCompletes env h k (i + j) (bs.get ⟨j, hj⟩) = true := by
  induction bs with
  | nil =>
    intro i log
    simp [flushLoop]
  | cons b rest ih =>
    intro i log
    have hsplit : (∀ j (hj : j < (b :: rest).length),
          postCompletes env h k (i + j) ((b :: rest).get ⟨j, hj⟩) = true) ↔
        postCompletes env h k i b = true ∧
          ∀ j (hj : j < rest.length),
            postCompletes env h k (i + 1 + j) (rest.get ⟨j, hj⟩) = true := by
      constructor
      · intro hall
        refine ⟨by simpa using hall 0 (Nat.succ_pos _), ?_⟩
        intro j hj
        have := hall (j + 1) (Nat.succ_lt_succ hj)
        simpa [Nat.add_assoc, Nat.add_comm 1 j] using this
      · rintro ⟨h0, hrest⟩ j hj
        cases j with
        | zero => simpa using h0
        | succ j =>
          have := hrest j (Nat.lt_of_succ_lt_succ hj)
          simpa [Nat.add_assoc, Nat.add_comm 1 j] using this
    rw [hsplit]
    unfold flushLoop postCompletes
    cases hm : env.jsonMarshal h b with
    | error e => simp
    | ok body =>
      simp only
      cases hs : (sendHttpRequest env i "POST" (pushRequest k body)).2.2 with
      | some eh => simp
      | none =>
        simp only [decide_True, true_and]
        exact ih (i + 1) _

/-- Shape of the result of `flush` on the delivery path. -/
theorem flush_eq (env : Env) (h : Heap) (k : lokiClient)
    (hne : k.flushStreams.Streams ≠ []) (hr : k.ready = true) :
    ∃ bs, splitStreams h k = some bs ∧
      flush env h k =
        some (if (flushLoop env h k 0 bs []).1 = true
              then { k with flushStreams := { Streams := [] } } else k,
          (flushLoop env h k 0 bs []).2) := by
  refine ⟨_, splitStreams_eq h k, ?_⟩
  have hlen : ¬ k.flushStreams.Streams.length = 0 := by
    intro e
    exact hne (List.length_eq_zero.1 e)
  unfold flush
  rw [if_neg hlen, if_neg (by simp [hr]), splitStreams_eq]
  simp only
  generalize flushLoop env h k 0 _ [] = r
  rcases r with ⟨f, log⟩
  cases f <;> simp

/-- C1 (counterexample): a ready client holds one fragment; when the POST of its batch fails
in the transport, and likewise when the batch cannot be serialised, `flush` returns with the
accumulation set still holding the fragment. -/
theorem flush_keeps_set_on_error :
    exOneClient.ready = true ∧ exOneClient.flushStreams.Streams = [exFragment] ∧
    flush exEnvRefused exHeap exOneClient =
      some (exOneClient,
        [(LogLevel.warn, "[LokiClient]SendHttpRequest fail:connection refused")]) ∧
    flush exEnvNoJson exHeap exOneClient =
      some (exOneClient,
        [(LogLevel.warn,
          "[LokiClient]json.Marshal lokiPushStreams fail:unsupported value")]) := by
  decide

theorem postDelivered_completes (env : Env) (h : Heap) (k : lokiClient) (i : Nat)
    (b : lokiPushStreams) (hd : postDelivered env h k i b = true) :
    postCompletes env h k i b = true := by
  unfold postDelivered at hd
  unfold postCompletes
  cases hm : env.jsonMarshal h b with
  | error e => simp [hm] at hd
  | ok body =>
    rw [hm] at hd
    simp only [decide_eq_true_eq] at hd ⊢
    exact hd.1

theorem postErrors_not_completes (env : Env) (h : Heap) (k : lokiClient) (i : Nat)
    (b : lokiPushStreams) (he : postErrors env h k i b = true) :
    postCompletes env h k i b = false := by
  unfold postErrors at he
  unfold postCompletes
  cases hm : env.jsonMarshal h b with
  | error e => rfl
  | ok body =>
    rw [hm] at he
    simp only [decide_eq_false_iff_not]
    intro e
    simp only [e, Option.isSome_none] at he
    exact Bool.false_ne_true he

/-- When some remaining batch fails with an error, the delivery loop returns from inside the
loop at a failing batch, and the last line it wrote is the warning for that failure. -/
theorem flushLoop_error (env : Env) (h : Heap) (k : lokiClient) (bs : List lokiPushStreams) :
    ∀ (i : Nat) (log : List (LogLevel × String)),
      (∃ j, ∃ hj : j < bs.length, postErrors env h k (i + j) (bs.get ⟨j, hj⟩) = true) →
      (flushLoop env h k i bs log).1 = false ∧
      ∃ j, ∃ hj : j < bs.length,
        ((∃ e, env.jsonMarshal h (bs.get ⟨j, hj⟩) = Except.error e ∧
            (flushLoop env h k i bs log).2.getLast? =
              some (LogLevel.warn,
                "[LokiClient]" ++ "json.Marshal lokiPushStreams fail:" ++ e)) ∨
         (∃ body eh, env.jsonMarshal h (bs.get ⟨j, hj⟩) = Except.ok body ∧
            (sendHttpRequest env (i + j) "POST" (pushRequest k body)).2.2 = some eh ∧
            (flushLoop env h k i bs log).2.getLast? =
              some (LogLevel.warn, "[LokiClient]" ++ "SendHttpRequest fail:" ++ eh))) := by
  induction bs with
  | nil =>
    rintro i log ⟨j, hj, _⟩
    exact absurd hj (Nat.not_lt_zero _)
  | cons b rest ih =>
    rintro i log ⟨j, hj, herr⟩
    cases hm : env.jsonMarshal h b with
    | error e =>
      have hfl : flushLoop env h k i (b :: rest) log =
          (false, log ++ [(LogLevel.warn,
            "[LokiClient]" ++ "json.Marshal lokiPushStreams fail:" ++ e)]) := by
        simp only [flushLoop, hm]
      rw [hfl]
      refine ⟨rfl, 0, Nat.succ_pos _, Or.inl ⟨e, hm, ?_⟩⟩
      exact List.getLast?_concat _
    | ok body =>
      cases hs : (sendHttpRequest env i "POST" (pushRequest k body)).2.2 with
      | some eh =>
        have hfl : flushLoop env h k i (b :: rest) log =
            (false, log ++ [(LogLevel.warn,
              "[LokiClient]" ++ "SendHttpRequest fail:" ++ eh)]) := by
          simp only [flushLoop, hm, hs]
        rw [hfl]
        refine ⟨rfl, 0, Nat.succ_pos _, Or.inr ⟨body, eh, hm, ?_, ?_⟩⟩
        · simpa using hs
        · exact List.getLast?_concat _
      | none =>
        have hfl : ∃ log2, flushLoop env h k i (b :: rest) log =
            flushLoop env h k (i + 1) rest log2 := by
          refine ⟨log ++ [(LogLevel.debug, "[LokiClient]" ++ "Push log to LokiServer success:" ++
            toString (entryCount b.Streams) ++ " item(s) in " ++
            toString b.Streams.length ++ " stream(s),max items of stream =" ++
            toString (maxCnt b.Streams))], ?_⟩
          simp only [flushLoop, hm, hs]
        obtain ⟨log2, hfl⟩ := hfl
        have hrest : ∃ j2, ∃ hj2 : j2 < rest.length,
            postErrors env h k (i + 1 + j2) (rest.get ⟨j2, hj2⟩) = true := by
          cases j with
          | zero =>
            exfalso
            have h0 : postErrors env h k i b = true := by simpa using herr
            unfold postErrors at h0
            rw [hm] at h0
            simp only [hs, Option.isSome_none] at h0
            exact Bool.false_ne_true h0
          | succ j2 =>
            refine ⟨j2, Nat.lt_of_succ_lt_succ hj, ?_⟩
            simpa [Nat.add_assoc, Nat.add_comm 1 j2] using herr
        obtain ⟨hflag, j2, hj2, hline⟩ := ih (i + 1) log2 hrest
        rw [hfl]
        refine ⟨hflag, j2 + 1, Nat.succ_lt_succ hj2, ?_⟩
        have hidx : i + (j2 + 1) = i + 1 + j2 := by omega
        rw [hidx]
        simpa using hline

/-- C1 (amended): with a non-empty accumulation set and `ready = true`, `flush` returns
normally.  When every batch is delivered (it is serialised and its POST is answered with a
2xx status) the accumulation set is empty afterwards.  When some batch cannot be serialised
or its POST fails with an error, `flush` returns from inside the delivery loop at a failing
batch: the last line it logged is the warning `json.Marshal lokiPushStreams fail:` or
`SendHttpRequest fail:` carrying the error of that batch, and the accumulation set is left
unchanged. -/
theorem flush_clears_when_loop_completes (env : Env) (h : Heap) (k : lokiClient)
    (hne : k.flushStreams.Streams ≠ []) (hr : k.ready = true) :
    ∃ bs, splitStreams h k = some bs ∧
      ((∀ j (hj : j < bs.length), postDelivered env h k j (bs.get ⟨j, hj⟩) = true) →
        ∃ log, flush env h k = some ({ k with flushStreams := { Streams := [] } }, log)) ∧
      ((∃ j, ∃ hj : j < bs.length, postErrors env h k j (bs.get ⟨j, hj⟩) = true) →
        ∃ log, flush env h k = some (k, log) ∧
          ∃ j, ∃ hj : j < bs.length,
            ((∃ e, env.jsonMarshal h (bs.get ⟨j, hj⟩) = Except.error e ∧
                log.getLast? =
                  some (LogLevel.warn,
                    "[LokiClient]" ++ "json.Marshal lokiPushStreams fail:" ++ e)) ∨
             (∃ body eh, env.jsonMarshal h (bs.get ⟨j, hj⟩) = Except.ok body ∧
                (sendHttpRequest env j "POST" (pushRequest k body)).2.2 = some eh ∧
                log.getLast? =
                  some (LogLevel.warn, "[LokiClient]" ++ "SendHttpRequest fail:" ++ eh)))) := by
  obtain ⟨bs, hbs, hfl⟩ := flush_eq env h k hne hr
  have hiff := flushLoop_fst env h k bs 0 []
  simp only [Nat.zero_add] at hiff
  refine ⟨bs, hbs, ?_, ?_⟩
  · intro hall
    have hall2 : ∀ j (hj : j < bs.length), postCompletes env h k j (bs.get ⟨j, hj⟩) = true :=
      fun j hj => postDelivered_completes env h k j _ (hall j hj)
    rw [hfl, if_pos (hiff.2 hall2)]
    exact ⟨_, rfl⟩
  · rintro ⟨j, hj, hfail⟩
    have herr := flushLoop_error env h k bs 0 [] ⟨j, hj, by simpa using hfail⟩
    obtain ⟨hflag, j2, hj2, hline⟩ := herr
    have hflag2 : ¬ (flushLoop env h k 0 bs []).1 = true := by
      rw [hflag]
      exact Bool.false_ne_true
    rw [hfl, if_neg hflag2]
    refine ⟨_, rfl, j2, hj2, ?_⟩
    simpa using hline

/-- C1 (amended), instance: one fragment and a sink that refuses every connection; the only
batch fails with an error, `flush` logs `SendHttpRequest fail:` and keeps the fragment. -/
theorem flush_clears_when_loop_completes_witness :
    exOneClient.flushStreams.Streams ≠ [] ∧ exOneClient.ready = true ∧
    (flush exEnvRefused exHeap exOneClient).map (fun r => r.1.flushStreams.Streams) =
      some [exFragment] ∧
    (flush exEnv exHeap exOneClient).map (fun r => r.1.flushStreams.Streams) = some [] ∧
    ∃ bs, splitStreams exHeap exOneClient = some bs ∧
      ((∀ j (hj : j < bs.length),
          postDelivered exEnvRefused exHeap exOneClient j (bs.get ⟨j, hj⟩) = true) →
        ∃ log, flush exEnvRefused exHeap exOneClient =
          some ({ exOneClient with flushStreams := { Streams := [] } }, log)) ∧
      ((∃ j, ∃ hj : j < bs.length,
          postErrors exEnvRefused exHeap exOneClient j (bs.get ⟨j, hj⟩) = true) →
        ∃ log, flush exEnvRefused exHeap exOneClient = some (exOneClient, log) ∧
          ∃ j, ∃ hj : j < bs.length,
            ((∃ e, exEnvRefused.jsonMarshal exHeap (bs.get ⟨j, hj⟩) = Except.error e ∧
                log.getLast? =
                  some (LogLevel.warn,
                    "[LokiClient]" ++ "json.Marshal lokiPushStreams fail:" ++ e)) ∨
             (∃ body eh, exEnvRefused.jsonMarshal exHeap (bs.get ⟨j, hj⟩) = Except.ok body ∧
                (sendHttpRequest exEnvRefused j "POST"
                  (pushRequest exOneClient body)).2.2 = some eh ∧
                log.getLast? =
                  some (LogLevel.warn, "[LokiClient]" ++ "SendHttpRequest fail:" ++ eh)))) :=
  ⟨by decide, by decide, by decide, by decide,
    flush_clears_when_loop_completes exEnvRefused exHeap exOneClient (by decide) (by decide)⟩

/-- C5 (the code at the failing input): the POST of the only batch comes back with status
500 and no transport error; `flush` takes the success branch (it logs the success line, not
`SendHttpRequest fail`) and clears the accumulation set. -/
theorem flush_status_500_taken_as_success :
    sendHttpRequest (exEnvStatus 500) 0 "POST" (pushRequest exOneClient "json") = ("", 500, none) ∧
    flush (exEnvStatus 500) exHeap exOneClient =
      some ({ exOneClient with flushStreams := { Streams := [] } },
        [(LogLevel.debug,
          "[LokiClient]Push log to LokiServer success:1 item(s) in 1 stream(s),max items of stream =1")]) := by
  decide

/-- C2 (the code at the failing input): the sink URL is well formed with scheme `http` and
the first GET comes back with status 503 and no transport error; the probe does not return,
it panics on `eh.Error()` with a nil `eh`. -/
theorem setLokiReadyStatus_panics_on_503 :
    (exEnvStatus 503).urlParse (exClient.cfg.LokiServer ++ readyApi) = Except.ok "http" ∧
    sendHttpRequest (exEnvStatus 503) 0 "GET"
      { Url := exClient.cfg.LokiServer ++ readyApi, Headers := [], Parameters := [],
        Body := none } = ("", 503, none) ∧
    setLokiReadyStatus (exEnvStatus 503) exClient = none :=
  ⟨rfl, by decide, by decide⟩

/-- The probe sets `ready = true` when the first attempt returns 200 with no error, and
`ready = false` (after three warnings) when all three attempts fail in the transport. -/
theorem setLokiReadyStatus_examples :
    (setLokiReadyStatus exEnv exClient).map (fun r => r.1) =
      some { exClient with ready := true } ∧
    (setLokiReadyStatus exEnvRefused { exClient with ready := true }).map
      (fun r => (r.1, r.2.length)) = some ({ exClient with ready := false }, 3) := by
  decide

/-! ## Theorems: heap and string helpers -/

theorem load_store_same (h : Heap) (a : Nat) (m : GoMap) (ha : a < h.length) :
    load (store h a m) a = m := by
  unfold load store
  rw [List.getD_eq_getElem?_getD, List.getElem?_set]
  simp [ha]

theorem length_store (h : Heap) (a : Nat) (m : GoMap) : (store h a m).length = h.length := by
  unfold store
  exact List.length_set _ _ _

theorem load_makeMap (h : Heap) (a : Nat) (ha : a < h.length) :
    load (makeMap h).1 a = load h a := by
  unfold load makeMap
  rw [List.getD_eq_getElem?_getD, List.getD_eq_getElem?_getD, List.getElem?_append_left ha]

theorem splitChars_of_not_mem (sep : Char) (b : List Char) (hb : sep ∉ b) :
    splitChars sep b = [b] := by
  induction b with
  | nil => rfl
  | cons c cs ih =>
    have hc : ¬ c = sep := fun e => hb (e ▸ List.mem_cons_self _ _)
    have hcs : sep ∉ cs := fun e => hb (List.mem_cons_of_mem _ e)
    unfold splitChars
    rw [if_neg hc, ih hcs]

theorem splitChars_append (sep : Char) (a b : List Char) (ha : sep ∉ a) :
    splitChars sep (a ++ sep :: b) = a :: splitChars sep b := by
  induction a with
  | nil => simp [splitChars]
  | cons c cs ih =>
    have hc : ¬ c = sep := fun e => ha (e ▸ List.mem_cons_self _ _)
    have hcs : sep ∉ cs := fun e => ha (List.mem_cons_of_mem _ e)
    rw [List.cons_append]
    simp only [splitChars, if_neg hc, ih hcs]

/-- Splitting `host:port` at the colon gives the two pieces when neither holds a colon. -/
theorem Split_host_port (host port : String) (hh : ':' ∉ host.data) (hp : ':' ∉ port.data) :
    Split (host ++ ":" ++ port) ':' = [host, port] := by
  unfold Split
  have hd : (host ++ ":" ++ port).data = host.data ++ ':' :: port.data := by
    rw [String.data_append, String.data_append]
    simp
  rw [hd, splitChars_append _ _ _ hh, splitChars_of_not_mem _ _ hp]
  rfl

/-- Copying one field of the record into a non-nil label map cannot panic; it rewrites the
map object in place. -/
theorem copyField_some (log : GoMap) (key : String) (a : Nat) (h : Heap) (ha : a < h.length) :
    ∃ h2, copyField log key (some a) h = some h2 ∧ h2.length = h.length ∧
      load h2 a = withField log key (load h a) := by
  unfold copyField withField
  cases Finmap.lookup key log with
  | none => exact ⟨h, rfl, rfl, rfl⟩
  | some v =>
    refine ⟨_, rfl, length_store _ _ _, ?_⟩
    exact load_store_same _ _ _ ha

/-- What `getLabels` finds: the labels of the first rule of the table whose `Tag` is `tag`. -/
theorem getLabelsLoop_true_iff (tag : String) (rules : List logLabel) (L : Option Nat) :
    getLabelsLoop tag rules = (L, true) ↔
      ∃ before r after, rules = before ++ r :: after ∧ (∀ x ∈ before, x.Tag ≠ tag) ∧
        r.Tag = tag ∧ r.Labels = L := by
  induction rules with
  | nil => simp [getLabelsLoop]
  | cons s rest ih =>
    unfold getLabelsLoop
    by_cases hs : s.Tag = tag
    · rw [if_pos hs]
      constructor
      · intro e
        exact ⟨[], s, rest, rfl, by simp, hs, by simpa using e⟩
      · rintro ⟨before, r, after, hsplit, hbefore, _, hL⟩
        cases before with
        | nil =>
          simp only [List.nil_append, List.cons.injEq] at hsplit
          rw [hsplit.1, hL]
        | cons b bs =>
          simp only [List.cons_append, List.cons.injEq] at hsplit
          exact absurd (hsplit.1 ▸ hs) (hbefore b (List.mem_cons_self _ _))
    · rw [if_neg hs, ih]
      constructor
      · rintro ⟨before, r, after, hsplit, hbefore, hr, hL⟩
        refine ⟨s :: before, r, after, by rw [hsplit]; rfl, ?_, hr, hL⟩
        intro x hx
        rcases List.mem_cons.1 hx with e | e
        · rw [e]; exact hs
        · exact hbefore x e
      · rintro ⟨before, r, after, hsplit, hbefore, hr, hL⟩
        cases before with
        | nil =>
          simp only [List.nil_append, List.cons.injEq] at hsplit
          exact absurd (hsplit.1 ▸ hr) hs
        | cons b bs =>
          simp only [List.cons_append, List.cons.injEq] at hsplit
          exact ⟨bs, r, after, hsplit.2, fun x hx => hbefore x (List.mem_cons_of_mem _ hx),
            hr, hL⟩

/-! ## Claims about `Push` -/

/-- C3 (counterexample): the only rule is keyed by the host `10.0.0.1` and the record comes
from `10.0.0.1:514`; with an empty tag, and likewise with no tag field, `Push` makes no
lookup by source address: the fragment carries a fresh map holding only the empty tag, not
the labels of the rule. -/
theorem Push_no_fallback_without_tag :
    Finmap.lookup "tag" exLogEmptyTag = some (Value.str "") ∧
    Finmap.lookup "tag" exLogNoTag = none ∧
    Split (Sprint (index exLogEmptyTag "client")) ':' = ["10.0.0.1", "514"] ∧
    Split (Sprint (index exLogNoTag "client")) ':' = ["10.0.0.1", "514"] ∧
    getLabels exRouterClient "10.0.0.1" = (some 0, true) ∧
    load exRouterHeap 0 = Finmap.insert "service" (Value.str "router") ∅ ∧
    Push exEnv exRouterHeap exRouterClient exLogEmptyTag =
      some (exRouterHeap ++ [Finmap.insert "tag" (Value.str "") ∅],
        { Stream := some 1, Values := [("1700000000000000000", "hello")] }) ∧
    Push exEnv exRouterHeap exRouterClient exLogNoTag =
      some (exRouterHeap ++ [Finmap.insert "tag" (Value.str "") ∅],
        { Stream := some 1, Values := [("1700000000000000000", "hello")] }) ∧
    Finmap.lookup "service"
      (load (exRouterHeap ++ [Finmap.insert "tag" (Value.str "") ∅]) 1) = none ∧
    Finmap.lookup "tag"
      (load (exRouterHeap ++ [Finmap.insert "tag" (Value.str "") ∅]) 1) =
        some (Value.str "") := by
  decide

/-- C3 (amended): for every record whose tag field is present, is not the empty string and
matches no rule, and whose source address prints as `host:port` (no colon inside `host` or
`port`), when the first rule whose `Tag` is `host` has a non-nil label map, `Push` returns a
fragment whose labels are the contents of that rule's label map with `tag` set to `host` and
then `severity`, `facility`, `hostname` and `priority` set from the record where the record
has them. -/
theorem Push_falls_back_to_source_host (env : Env) (h : Heap) (k : lokiClient) (log : GoMap)
    (v : Value) (host port : String) (a : Nat)
    (htag : Finmap.lookup "tag" log = some v) (hv : v ≠ Value.str "")
    (hmiss : (getLabels k (Sprint v)).2 = false)
    (hclient : Sprint (index log "client") = host ++ ":" ++ port)
    (hh : ':' ∉ host.data) (hp : ':' ∉ port.data)
    (hrule : getLabels k host = (some a, true)) (ha : a < h.length) :
    ∃ h2 ls, Push env h k log = some (h2, ls) ∧
      labelsOf h2 ls = some (withRecord log host (load h a)) := by
  have hres : pushResolve k (makeMap h).2 log = (some a, host) := by
    unfold pushResolve
    rw [htag]
    simp only [hv, ne_eq, not_false_eq_true, if_true]
    have hg : getLabels k (Sprint v) = ((getLabels k (Sprint v)).1, false) := by
      rw [← hmiss]
    rw [hg]
    simp only [hclient, Split_host_port host port hh hp]
    simp [hrule]
  have ha1 : a < (makeMap h).1.length := by
    simp [makeMap]
    omega
  have h0 : ∃ h1, mapAssign (makeMap h).1 (some a) "tag" (Value.str host) = some h1 ∧
      h1.length = (makeMap h).1.length ∧
      load h1 a = Finmap.insert "tag" (Value.str host) (load h a) := by
    refine ⟨_, rfl, length_store _ _ _, ?_⟩
    rw [load_store_same _ _ _ ha1, load_makeMap h a ha]
  obtain ⟨h1, e1, l1, c1⟩ := h0
  obtain ⟨h2, e2, l2, c2⟩ := copyField_some log "severity" a h1 (by omega)
  obtain ⟨h3, e3, l3, c3⟩ := copyField_some log "facility" a h2 (by omega)
  obtain ⟨h4, e4, l4, c4⟩ := copyField_some log "hostname" a h3 (by omega)
  obtain ⟨h5, e5, _, c5⟩ := copyField_some log "priority" a h4 (by omega)
  have hPush : ∃ vals, Push env h k log = some (h5, { Stream := some a, Values := vals }) := by
    unfold Push
    simp only [hres, e1, e2, e3, e4, e5, Option.some_bind, Option.bind_eq_bind]
    exact ⟨_, rfl⟩
  obtain ⟨vals, hP⟩ := hPush
  refine ⟨h5, _, hP, ?_⟩
  unfold labelsOf view withRecord
  simp only [Option.map_some']
  rw [c5, c4, c3, c2, c1]

/-- C3 (amended), instance: a record tagged `sshd` (no such rule) from `10.0.0.1:514`. -/
theorem Push_falls_back_to_source_host_witness :
    Finmap.lookup "tag" exLogOtherTag = some (Value.str "sshd") ∧
    (getLabels exRouterClient "sshd").2 = false ∧
    Sprint (index exLogOtherTag "client") = "10.0.0.1" ++ ":" ++ "514" ∧
    getLabels exRouterClient "10.0.0.1" = (some 0, true) ∧
    ∃ h2 ls, Push exEnv exRouterHeap exRouterClient exLogOtherTag = some (h2, ls) ∧
      labelsOf h2 ls = some (withRecord exLogOtherTag "10.0.0.1" (load exRouterHeap 0)) :=
  ⟨by decide, by decide, by decide, by decide,
   Push_falls_back_to_source_host exEnv exRouterHeap exRouterClient exLogOtherTag
    (Value.str "sshd") "10.0.0.1" "514" 0 (by decide) (by decide) (by decide) (by decide)
    (by decide) (by decide) (by decide) (by decide)⟩

/-- C4 (the code at the failing input): two records match the rule `app1`, the first with
severity 3, the second with severity 6.  Both fragments hold the map object of the rule
itself, so the second `Push` rewrites the labels of the first fragment (its `severity`
becomes 6) and the `Labels` of the configured rule change with each `Push`. -/
theorem Push_rewrites_earlier_fragment :
    Push exEnv exHeap exClient exLogSev3 =
      some (exHeapSev3, { Stream := some 0, Values := [("1700000000000000000", "disk full")] }) ∧
    Push exEnv exHeapSev3 exClient exLogSev6 =
      some (exHeapSev6, { Stream := some 0, Values := [("1700000000000000000", "started")] }) ∧
    getLabels exClient "app1" = (some 0, true) ∧
    (labelsOf exHeapSev3 { Stream := some 0, Values := [("1700000000000000000", "disk full")] }).bind
      (Finmap.lookup "severity") = some (Value.int 3) ∧
    (labelsOf exHeapSev6 { Stream := some 0, Values := [("1700000000000000000", "disk full")] }).bind
      (Finmap.lookup "severity") = some (Value.int 6) ∧
    load exHeap 0 ≠ load exHeapSev3 0 ∧ load exHeapSev3 0 ≠ load exHeapSev6 0 := by
  decide

end Syslog2Loki
